import Mathlib

/-!
Verification of the mob session core: a shallow embedding of the break/lunch
scheduling functions and the next-command state machine of `src/cmd/next.rs`
and `src/cmd/status.rs`, with the session data model of `session.rs`.

Time modelling: chrono `DateTime<Utc>` instants are integers counting seconds
since an arbitrary epoch; chrono `Duration` values are integer second counts
(every duration the program builds is a whole number of seconds);
chrono `NaiveTime` values are natural numbers of seconds since midnight,
below 86400.  Rust i64 division truncates toward zero, which is `Int.tdiv`.
-/

namespace Mob

/-- chrono `Duration`, as a whole number of seconds.  All durations this
program constructs are whole seconds, so second granularity is exact. -/
abbrev Duration := Int

/-- chrono `Duration::minutes`. -/
def Duration.minutes (k : Int) : Duration := 60 * k

/-- chrono `Duration / i32` (truncating division).  The program only divides
`Duration::minutes(w)` by 2, whose second count `60*w` is even, so dividing
the second count truncating toward zero is exact and matches chrono, which
truncates at nanosecond granularity. -/
def Duration.divBy (d : Duration) (n : Int) : Duration := d.tdiv n

/-- chrono `NaiveTime`: seconds since midnight, in `[0, 86400)`. -/
abbrev TimeOfDay := Nat

/-- chrono `NaiveTime + Duration` (also used negated for subtraction):
wraps around midnight. -/
def timeAddDur (t : TimeOfDay) (d : Duration) : TimeOfDay :=
  (((t : Int) + d).emod 86400).toNat

/-- chrono `NaiveTime - NaiveTime`: the raw signed difference, no wrap. -/
def timeSubTime (t1 t2 : TimeOfDay) : Duration := (t1 : Int) - (t2 : Int)

/-- Value of an ASCII digit character, `none` on non-digits. -/
def digitVal (c : Char) : Option Nat :=
  if c.isDigit then some (c.toNat - 48) else none

/-- chrono numeric scan for a 2-digit field (`scan::number(1, 2)`): consume
one or two leading ASCII digits, greedily, returning the value and the rest. -/
def scanNum2 : List Char → Option (Nat × List Char)
  | [] => none
  | c :: rest =>
    match digitVal c with
    | none => none
    | some d =>
      match rest with
      | c2 :: rest2 =>
        match digitVal c2 with
        | some d2 => some (10 * d + d2, rest2)
        | none => some (d, c2 :: rest2)
      | [] => some (d, [])

/-- chrono `NaiveTime::parse_from_str(s, "%H:%M")`: one or two digits for the
hour (0-23), a literal colon, one or two digits for the minute (0-59), and
nothing else.  Returns the time of day in seconds. -/
def parseHHMM (s : String) : Option TimeOfDay :=
  match scanNum2 s.data with
  | none => none
  | some (h, rest) =>
    if h ≤ 23 then
      match rest with
      | c :: rest2 =>
        if c = ':' then
          match scanNum2 rest2 with
          | some (m, []) => if m ≤ 59 then some (3600 * h + 60 * m) else none
          | _ => none
        else none
      | [] => none
    else none

/-- Parse failure of `is_lunch_time` (chrono `ParseError` via anyhow). -/
inductive ParseError where
  | invalidTime
  deriving DecidableEq

/-- Embedding of `is_break_time` (src/src/cmd/next.rs, lines 154-168). -/
def is_break_time (now last_break : Int)
    (break_interval break_duration work_duration : Int) : Option Duration :=
  let duration_since_last : Duration := now - last_break
  if duration_since_last >
      Duration.minutes break_interval + Duration.minutes (work_duration.tdiv 2)
  then some (Duration.minutes break_duration)
  else none

/-- Embedding of `is_lunch_time` (src/src/cmd/next.rs, lines 170-188). -/
def is_lunch_time (now : TimeOfDay) (work_duration : Int)
    (lunch_start lunch_end : String) : Except ParseError (Option Duration) :=
  match parseHHMM lunch_start with
  | none => .error .invalidTime
  | some ls =>
    match parseHHMM lunch_end with
    | none => .error .invalidTime
    | some le =>
      let wd : Duration := Duration.minutes work_duration
      let lunch_duration : Duration := timeSubTime le ls
      let start_nagging : TimeOfDay := timeAddDur ls (-(Duration.divBy wd 2))
      let end_nagging : TimeOfDay := timeAddDur ls wd
      if start_nagging ≤ now ∧ now < end_nagging
      then .ok (some lunch_duration)
      else .ok none

/-- C1: for all UTC instants `now`, `last_break` and nonnegative integers
`break_interval`, `break_duration`, `work_duration`, `is_break_time` returns
`some (break_duration minutes)` iff `now - last_break` strictly exceeds
`break_interval + work_duration / 2` minutes (division truncating toward
zero), and returns `none` otherwise, including at exact equality. -/
theorem c1_is_break_time_iff (now last_break bi bd wd : Int)
    (hbi : 0 ≤ bi) (hbd : 0 ≤ bd) (hwd : 0 ≤ wd) :
    (is_break_time now last_break bi bd wd = some (Duration.minutes bd) ↔
      now - last_break > Duration.minutes bi + Duration.minutes (wd.tdiv 2)) ∧
    (now - last_break ≤ Duration.minutes bi + Duration.minutes (wd.tdiv 2) →
      is_break_time now last_break bi bd wd = none) := by
  constructor
  · simp only [is_break_time]
    split_ifs with h
    · simp [h]
    · simp [h]
  · intro h
    simp only [is_break_time]
    rw [if_neg (not_lt.mpr h)]

/-- Witness for C1: elapsed 60 minutes, interval 55, work duration 9, so the
threshold is 59 minutes and a 10-minute break is offered. -/
theorem c1_witness :
    is_break_time 3600 0 55 10 9 = some (Duration.minutes 10) :=
  (c1_is_break_time_iff 3600 0 55 10 9 (by decide) (by decide) (by decide)).1.mpr
    (by decide)

/-- C2: for every time of day `now` below 86400 seconds, every work duration,
and every pair of well-formed HH:MM strings, `is_lunch_time` returns
`Except.ok (some d)` iff `now` lies in the half-open clock window from
`lunchStart - workDuration/2` to `lunchStart + workDuration` (endpoints
wrapping around midnight as chrono `NaiveTime` arithmetic does), with `d` the
raw, possibly negative, difference `lunchEnd - lunchStart`; otherwise it
returns `Except.ok none`. -/
theorem c2_is_lunch_time_window (now : TimeOfDay) (wd : Int) (ls le : String)
    (tls tle : TimeOfDay)
    (hls : parseHHMM ls = some tls) (hle : parseHHMM le = some tle)
    (hnow : now < 86400) :
    (is_lunch_time now wd ls le = .ok (some (timeSubTime tle tls)) ↔
      (timeAddDur tls (-(Duration.divBy (Duration.minutes wd) 2)) ≤ now ∧
        now < timeAddDur tls (Duration.minutes wd))) ∧
    (¬ (timeAddDur tls (-(Duration.divBy (Duration.minutes wd) 2)) ≤ now ∧
        now < timeAddDur tls (Duration.minutes wd)) →
      is_lunch_time now wd ls le = .ok none) := by
  simp only [is_lunch_time, hls, hle]
  constructor
  · split_ifs with h
    · simp [h]
    · simp [h]
  · intro h
    rw [if_neg h]

/-- Witness for C2: lunch from 11:30 to 12:30, work duration 10 minutes,
now exactly 11:30 (second 41400): the window is [11:25, 11:40), so lunch is
offered with the 60-minute lunch duration. -/
theorem c2_witness :
    is_lunch_time 41400 10 "11:30" "12:30" = .ok (some 3600) := by
  have h := c2_is_lunch_time_window 41400 10 "11:30" "12:30" 41400 45000
    (by decide) (by decide) (by decide)
  have h2 := h.1.mpr (by decide)
  simpa [timeSubTime] using h2

/-- C6: whenever either lunch time string fails to parse as HH:MM,
`is_lunch_time` returns a parse error and never an `ok` value, regardless of
the other arguments. -/
theorem c6_is_lunch_time_parse_error (now : TimeOfDay) (wd : Int)
    (ls le : String) (h : parseHHMM ls = none ∨ parseHHMM le = none) :
    is_lunch_time now wd ls le = .error ParseError.invalidTime := by
  rcases h with h | h
  · simp only [is_lunch_time, h]
  · cases hls : parseHHMM ls with
    | none => simp only [is_lunch_time, hls]
    | some tls => simp only [is_lunch_time, hls, h]

/-- Witness for C6: the malformed string 25:99 makes `is_lunch_time` fail. -/
theorem c6_witness :
    is_lunch_time 0 60 "25:99" "12:00" = .error ParseError.invalidTime :=
  c6_is_lunch_time_parse_error 0 60 "25:99" "12:00" (Or.inl (by decide))

/-- Modelled from the spec: the scheduling settings snapshot of `session.rs`
(the file is not under src/; the fields are the ones `next.rs` reads). -/
structure Settings where
  commit_message : String
  work_duration : Int
  break_interval : Int
  break_duration : Int
  lunch_start : String
  lunch_end : String
  deriving DecidableEq

/-- Modelled from the spec: the branch pair of `session.rs`. -/
structure Branches where
  branch : String
  base_branch : String
  deriving DecidableEq

/-- Modelled from the spec: the `State` enum of `session.rs` (not under
src/), exactly the four variants matched in `next.rs`. -/
inductive State where
  | Stopped
  | Working (driver : String)
  | Break (next : Option String)
  | WaitingForNext (next : Option String)
  deriving DecidableEq

/-- Modelled from the spec: the driver roster of `session.rs`, an ordered
duplicate-free list of participant names. -/
abbrev Drivers := List String

/-- Modelled from the spec: the persisted `Session` record of `session.rs`,
with the fields `next.rs` and `status.rs` read.  `last_break` is a UTC
instant in seconds. -/
structure Session where
  state : State
  drivers : Drivers
  branches : Branches
  last_break : Int
  settings : Option Settings
  deriving DecidableEq

/-- The roster with the current user appended when absent. -/
def rosterWith (ds : Drivers) (current : String) : Drivers :=
  if current ∈ ds then ds else ds ++ [current]

/-- Modelled from the spec: `Drivers::next` of `session.rs` (not under src/).
If the current user is not in the roster it is appended; with fewer than two
entries there is no-one to hand off to; otherwise rotation advances past the
current user to the following entry, wrapping to the start. -/
def Drivers.next (ds : Drivers) (current : String) : Option String :=
  let roster := rosterWith ds current
  if roster.length < 2 then none
  else roster.get? ((roster.indexOf current + 1) % roster.length)

/-- Fatal errors a `next` run can abort with (anyhow error values). -/
inductive Error where
  | git (msg : String)
  | store (msg : String)
  | prompt (msg : String)
  | timerFailed (msg : String)
  | parse
  | panic
  deriving DecidableEq

deriving instance DecidableEq for Except

/-- Observable side effects of one command run, in order. -/
inductive Effect where
  | gitRun (args : List String)
  | save (s : Session)
  | timerStart (title : String) (duration : Duration) (message : String)
  | logWarn (msg : String)
  | logInfo (msg : String)
  | confirm (text : String)
  deriving DecidableEq

/-- An effect that only writes a log line. -/
def Effect.isLog : Effect → Bool
  | .logWarn _ => true
  | .logInfo _ => true
  | _ => false

/-- An effect that saves the session through the store. -/
def Effect.isSave : Effect → Bool
  | .save _ => true
  | _ => false

/-- The relevant part of `Config`: the acting user and the push remote. -/
structure Config where
  name : String
  remote : String
  deriving DecidableEq

/-- Behaviour of the external collaborators during one run: the store, the
version-control runner, the timer, the confirmation prompts, and the two
clocks `Local::now().time()` and `Utc::now()`. -/
structure Env where
  load : Except Error Session
  treeIsClean : Except Error Bool
  gitRun : List String → Except Error Unit
  save : Session → Except Error Unit
  timerStart : Except Error Unit
  confirmLunch : Except Error Bool
  confirmBreak : Except Error Bool
  localNow : TimeOfDay
  utcNow : Int

/-- Text of the lunch confirmation prompt in `take_break`. -/
def lunchPromptText : String := "It\x27s lunch time. Go for lunch?"

/-- Text of the break confirmation prompt in `take_break`. -/
def breakPromptText : String := "Take a break?"

/-- Embedding of `Next::take_break` (src/src/cmd/next.rs, lines 112-151):
lunch is checked first; when it triggers and is accepted the function returns
at once, otherwise the break check runs.  Returns the emitted effects and the
result; `settings.unwrap()` on a stopped session is a panic. -/
def take_break (env : Env) (session : Session) :
    List Effect × Except Error (Option (String × Duration)) :=
  match session.settings with
  | none => ([], .error .panic)
  | some settings =>
    match is_lunch_time env.localNow settings.work_duration
        settings.lunch_start settings.lunch_end with
    | .error _ => ([], .error .parse)
    | .ok is_lunch =>
      let breakStep : List Effect × Except Error (Option (String × Duration)) :=
        match is_break_time env.utcNow session.last_break
            settings.break_interval settings.break_duration
            settings.work_duration with
        | some duration =>
          match env.confirmBreak with
          | .error e => ([.confirm breakPromptText], .error e)
          | .ok true => ([.confirm breakPromptText], .ok (some ("Break", duration)))
          | .ok false => ([.confirm breakPromptText], .ok none)
        | none => ([], .ok none)
      match is_lunch with
      | some duration =>
        match env.confirmLunch with
        | .error e => ([.confirm lunchPromptText], .error e)
        | .ok true => ([.confirm lunchPromptText], .ok (some ("Lunch", duration)))
        | .ok false => (Effect.confirm lunchPromptText :: breakStep.1, breakStep.2)
      | none => breakStep

/-- Arguments of the `git add` call in `Next::next`. -/
def addArgs : List String := ["add", "--all"]

/-- Arguments of the `git commit` call in `Next::next`. -/
def commitArgs (settings : Settings) : List String :=
  ["commit", "--message", settings.commit_message, "--no-verify"]

/-- Arguments of the `git push` call in `Next::next`. -/
def pushArgs (cfg : Config) (session : Session) : List String :=
  ["push", "--no-verify", cfg.remote, session.branches.branch]

/-- Embedding of the version-control block of `Next::next` (src/src/cmd/
next.rs, lines 59-76): with a clean tree nothing is committed; otherwise add,
commit and push run in order, each aborting the command on failure. -/
def gitSync (cfg : Config) (env : Env) (session : Session) :
    List Effect × Except Error Unit :=
  match env.treeIsClean with
  | .error e => ([], .error e)
  | .ok true => ([.logInfo "Nothing was changed, so nothing to commit"], .ok ())
  | .ok false =>
    match env.gitRun addArgs with
    | .error e => ([.gitRun addArgs], .error e)
    | .ok _ =>
      match session.settings with
      | none => ([.gitRun addArgs], .error .panic)
      | some settings =>
        match env.gitRun (commitArgs settings) with
        | .error e => ([.gitRun addArgs, .gitRun (commitArgs settings)], .error e)
        | .ok _ =>
          match env.gitRun (pushArgs cfg session) with
          | .error e =>
            ([.gitRun addArgs, .gitRun (commitArgs settings),
              .gitRun (pushArgs cfg session)], .error e)
          | .ok _ =>
            ([.gitRun addArgs, .gitRun (commitArgs settings),
              .gitRun (pushArgs cfg session)], .ok ())

/-- Embedding of `Next::next` (src/src/cmd/next.rs, lines 58-110): sync the
repository, compute the next driver, offer a break, then save the new state
and either start the timer (break taken) or announce the next driver. -/
def Next.next (cfg : Config) (env : Env) (session : Session) :
    List Effect × Except Error Unit :=
  match gitSync cfg env session with
  | (tr, .error e) => (tr, .error e)
  | (tr, .ok _) =>
    let next_driver := Drivers.next session.drivers cfg.name
    let next_driver_name := next_driver.getD "anyone!"
    match take_break env session with
    | (tb, .error e) => (tr ++ tb, .error e)
    | (tb, .ok (some (break_type, duration))) =>
      let session2 : Session := { session with state := State.Break next_driver }
      let title := break_type ++ ", next driver " ++ next_driver_name
      let message := break_type ++ " over. " ++ next_driver_name ++ " turn"
      match env.save session2 with
      | .error e => (tr ++ tb ++ [.save session2], .error e)
      | .ok _ =>
        match env.timerStart with
        | .error e =>
          (tr ++ tb ++ [.save session2, .timerStart title duration message],
            .error e)
        | .ok _ =>
          (tr ++ tb ++ [.save session2, .timerStart title duration message],
            .ok ())
    | (tb, .ok none) =>
      let session2 : Session :=
        { session with state := State.WaitingForNext next_driver }
      match env.save session2 with
      | .error e => (tr ++ tb ++ [.save session2], .error e)
      | .ok _ =>
        (tr ++ tb ++ [.save session2,
          .logInfo ("Next driver: " ++ next_driver_name)], .ok ())

/-- Embedding of `Next::run` (src/src/cmd/next.rs, lines 28-56): load the
session; only a `Working` state whose driver is the acting user proceeds to
`Next::next`; every other state only logs a warning or an info line. -/
def Next.run (cfg : Config) (env : Env) : List Effect × Except Error Unit :=
  match env.load with
  | .error e => ([], .error e)
  | .ok session =>
    match session.state with
    | State.Stopped => ([.logWarn "No current mob session, run mob start"], .ok ())
    | State.Working driver =>
      if driver = cfg.name then Next.next cfg env session
      else ([.logWarn ("The current driver is " ++ driver)], .ok ())
    | State.Break nxt =>
      (match nxt with
        | some name =>
          if name = cfg.name then [Effect.logInfo "It\x27s your turn. Run start"]
          else [Effect.logInfo (name ++ " should run start")]
        | none => [Effect.logInfo "Run start"], .ok ())
    | State.WaitingForNext nxt =>
      (match nxt with
        | some name =>
          if name = cfg.name then [Effect.logInfo "It\x27s your turn. Run start"]
          else [Effect.logInfo ("Waiting for " ++ name ++ " to start")]
        | none => [Effect.logInfo "Waiting for someone to run start"], .ok ())

/-- The session recorded by the last save effect of a trace, if any. -/
def lastSave (tr : List Effect) : Option Session :=
  tr.foldl (fun acc e => match e with | Effect.save s => some s | _ => acc) none

/-- The persisted session after a run: the last saved session, or the
previously persisted one when the run saved nothing. -/
def persisted (s : Session) (tr : List Effect) : Session :=
  (lastSave tr).getD s

/-- Embedding of `Status::print_status` (src/src/cmd/status.rs, lines 43-76),
rendering styling dropped.  The match in the source has arms for `Stopped`,
`Working` and `WaitingForNext` only; the `Break` variant of `State` (matched
in `next.rs` and listed in the spec) has no arm, so the embedding returns
`none` for `Break` to mark the uncovered case. -/
def printStatus (cfg : Config) (session : Session) : Option (List String) :=
  match session.state with
  | State.Stopped =>
    some ["✋ Stopped", "   Run \x27mob start\x27 to start a new session"]
  | State.Working driver =>
    let who := if driver = cfg.name then "You are" else driver ++ " is"
    some ["🚗 " ++ who ++ " driving",
      "   Run \x27mob next\x27 when finished",
      "🚚 working on " ++ session.branches.branch ++ " with parent " ++
        session.branches.base_branch]
  | State.WaitingForNext nxt =>
    let who := match nxt with
      | some driver => if driver = cfg.name then "You" else driver
      | none => "Anyone"
    some ["💤 Waiting for " ++ who ++ " to run \x27mob start\x27",
      "🚚 working on " ++ session.branches.branch ++ " with parent " ++
        session.branches.base_branch]
  | State.Break _ => none

/-- Fixture: scheduling settings with a 10-minute work duration, breaks every
55 minutes for 10 minutes, lunch from 11:30 to 12:30. -/
def settingsA : Settings :=
  { commit_message := "mob sync", work_duration := 10, break_interval := 55,
    break_duration := 10, lunch_start := "11:30", lunch_end := "12:30" }

/-- Fixture: an active session with alice driving and bob next in rotation. -/
def sessionA : Session :=
  { state := State.Working "alice", drivers := ["alice", "bob"],
    branches := { branch := "mob-branch", base_branch := "main" },
    last_break := 0, settings := some settingsA }

/-- Fixture: alice acting, pushing to origin. -/
def cfgA : Config := { name := "alice", remote := "origin" }

/-- Fixture: collaborators that all succeed, prompts answered yes, a clean
tree, local midnight (outside the lunch window) and a UTC clock far past the
break threshold. -/
def envA : Env :=
  { load := .ok sessionA, treeIsClean := .ok true, gitRun := fun _ => .ok (),
    save := fun _ => .ok (), timerStart := .ok (), confirmLunch := .ok true,
    confirmBreak := .ok true, localNow := 0, utcNow := 100000 }

/-- No effect emitted by the version-control block is a save. -/
theorem gitSync_no_save (cfg : Config) (env : Env) (s : Session) :
    ((gitSync cfg env s).1.all fun e => ! e.isSave) = true := by
  unfold gitSync
  repeat' split
  all_goals rfl

/-- No effect emitted by `take_break` is a save. -/
theorem take_break_no_save (env : Env) (s : Session) :
    ((take_break env s).1.all fun e => ! e.isSave) = true := by
  unfold take_break
  repeat' split
  all_goals rfl

/-- C3: when the loaded state is `Stopped`, `Break`, `WaitingForNext`, or
`Working` with a driver other than the acting user, the `next` command exits
successfully and its only effects are log lines: nothing is saved, no git
command runs, no timer starts, no prompt is shown. -/
theorem c3_next_noop (cfg : Config) (env : Env) (s : Session)
    (hload : env.load = .ok s)
    (h : s.state = State.Stopped ∨
      (∃ d, s.state = State.Working d ∧ d ≠ cfg.name) ∨
      (∃ n, s.state = State.Break n) ∨
      (∃ n, s.state = State.WaitingForNext n)) :
    (Next.run cfg env).2 = .ok () ∧
    ∀ e ∈ (Next.run cfg env).1, e.isLog = true := by
  simp only [Next.run, hload]
  rcases h with h | ⟨d, h, hne⟩ | ⟨n, h⟩ | ⟨n, h⟩ <;> rw [h]
  · simp [Effect.isLog]
  · simp [hne, Effect.isLog]
  · rcases n with _ | name
    · simp [Effect.isLog]
    · by_cases hn : name = cfg.name <;> simp [hn, Effect.isLog]
  · rcases n with _ | name
    · simp [Effect.isLog]
    · by_cases hn : name = cfg.name <;> simp [hn, Effect.isLog]

/-- Witness for C3: with bob driving and alice acting, `next` exits with ok
and only logs. -/
theorem c3_witness :
    (Next.run cfgA
        { envA with load := .ok { sessionA with state := State.Working "bob" } }).2 =
      .ok () ∧
    ∀ e ∈ (Next.run cfgA
        { envA with load := .ok { sessionA with state := State.Working "bob" } }).1,
      e.isLog = true :=
  c3_next_noop cfgA
    { envA with load := .ok { sessionA with state := State.Working "bob" } }
    { sessionA with state := State.Working "bob" } rfl
    (Or.inr (Or.inl ⟨"bob", rfl, by decide⟩))

/-- C10 (code bug in the source): `print_status` has no arm for the `Break`
state, although `next.rs` matches `State::Break` and the spec lists it, so a
session on break has no status rendering; here the embedding yields `none`. -/
theorem c10_print_status_break_uncovered :
    printStatus cfgA { sessionA with state := State.Break (some "bob") } = none :=
  rfl

/-- C4: if the tree check or any of the add, commit, push steps fails, the
`next` step aborts with that error, and no save effect is ever emitted, so
the previously persisted state is untouched. -/
theorem c4_git_failure_aborts (cfg : Config) (env : Env) (s : Session)
    (e : Error)
    (h : env.treeIsClean = .error e ∨
      (env.treeIsClean = .ok false ∧
        (env.gitRun addArgs = .error e ∨
          (env.gitRun addArgs = .ok () ∧ ∃ st, s.settings = some st ∧
            (env.gitRun (commitArgs st) = .error e ∨
              (env.gitRun (commitArgs st) = .ok () ∧
                env.gitRun (pushArgs cfg s) = .error e)))))) :
    (Next.next cfg env s).2 = .error e ∧
    ∀ eff ∈ (Next.next cfg env s).1, eff.isSave = false := by
  have hg : gitSync cfg env s = ((gitSync cfg env s).1, Except.error e) ∧
      ∀ eff ∈ (gitSync cfg env s).1, eff.isSave = false := by
    rcases h with h | ⟨hc, h | ⟨ha, st, hst, h | ⟨hcm, hp⟩⟩⟩
    · simp [gitSync, h, Effect.isSave]
    · simp [gitSync, hc, h, Effect.isSave]
    · simp [gitSync, hc, ha, hst, h, Effect.isSave]
    · simp [gitSync, hc, ha, hst, hcm, hp, Effect.isSave]
  obtain ⟨hg1, hg2⟩ := hg
  unfold Next.next
  rw [hg1]
  exact ⟨rfl, hg2⟩

/-- Fixture: like `envA` but with a dirty tree and a version-control runner
whose push fails. -/
def envC4 : Env :=
  { envA with
    treeIsClean := .ok false,
    gitRun := fun args =>
      if args = pushArgs cfgA sessionA then .error (Error.git "push failed")
      else .ok () }

/-- Witness for C4: a failing push aborts the dirty-tree run of `next` and
nothing is saved. -/
theorem c4_witness :
    (Next.next cfgA envC4 sessionA).2 = .error (Error.git "push failed") ∧
    ∀ eff ∈ (Next.next cfgA envC4 sessionA).1, eff.isSave = false :=
  c4_git_failure_aborts cfgA envC4 sessionA (Error.git "push failed")
    (Or.inr ⟨rfl, Or.inr ⟨by decide, settingsA, rfl, Or.inr ⟨by decide, by decide⟩⟩⟩)

/-- C5, counterexample to the claim as stated: a run of `next` in which an
actual break (not lunch) is offered and accepted saves the `Break` state with
`last_break` still equal to the loaded value 0, so `last_break` is not
updated when a break is taken. -/
theorem c5_counterexample :
    Next.next cfgA envA sessionA =
      ([Effect.logInfo "Nothing was changed, so nothing to commit",
        Effect.confirm breakPromptText,
        Effect.save { sessionA with state := State.Break (some "bob") },
        Effect.timerStart "Break, next driver bob" (Duration.minutes 10)
          "Break over. bob turn"], .ok ()) ∧
    ({ sessionA with state := State.Break (some "bob") } : Session).last_break =
      sessionA.last_break := by
  constructor
  · decide
  · rfl

/-- C5 as amended: during `Next::next` the `last_break` field is never
modified — every session the run saves carries the `last_break` of the loaded
session, whether a break, lunch, or no break is taken. -/
theorem c5_last_break_unchanged (cfg : Config) (env : Env) (s s2 : Session)
    (h : Effect.save s2 ∈ (Next.next cfg env s).1) :
    s2.last_break = s.last_break := by
  have hg := gitSync_no_save cfg env s
  have ht := take_break_no_save env s
  rw [List.all_eq_true] at hg ht
  have hgm : Effect.save s2 ∉ (gitSync cfg env s).1 := fun hmem => by
    have := hg _ hmem
    simp [Effect.isSave] at this
  have htm : Effect.save s2 ∉ (take_break env s).1 := fun hmem => by
    have := ht _ hmem
    simp [Effect.isSave] at this
  unfold Next.next at h
  split at h
  · rename_i tr e heq
    have htr : (gitSync cfg env s).1 = tr := by rw [heq]
    rw [htr] at hgm
    exact absurd h hgm
  · rename_i tr u heq
    have htr : (gitSync cfg env s).1 = tr := by rw [heq]
    rw [htr] at hgm
    split at h
    · rename_i tb e heq2
      have htb : (take_break env s).1 = tb := by rw [heq2]
      rw [htb] at htm
      rw [List.mem_append] at h
      rcases h with h | h
      · exact absurd h hgm
      · exact absurd h htm
    · rename_i tb bt d heq2
      have htb : (take_break env s).1 = tb := by rw [heq2]
      rw [htb] at htm
      cases hsv : env.save
          { s with state := State.Break (Drivers.next s.drivers cfg.name) } with
      | error e2 =>
        simp only [hsv] at h
        rw [List.mem_append, List.mem_append] at h
        rcases h with (h | h) | h
        · exact absurd h hgm
        · exact absurd h htm
        · simp only [List.mem_cons, List.not_mem_nil, or_false] at h
          injection h with h2
          rw [h2]
      | ok u2 =>
        simp only [hsv] at h
        cases hti : env.timerStart with
        | error e3 =>
          simp only [hti] at h
          rw [List.mem_append, List.mem_append] at h
          rcases h with (h | h) | h
          · exact absurd h hgm
          · exact absurd h htm
          · simp only [List.mem_cons, List.not_mem_nil, or_false] at h
            rcases h with h | h
            · injection h with h2
              rw [h2]
            · exact absurd h (by simp)
        | ok u3 =>
          simp only [hti] at h
          rw [List.mem_append, List.mem_append] at h
          rcases h with (h | h) | h
          · exact absurd h hgm
          · exact absurd h htm
          · simp only [List.mem_cons, List.not_mem_nil, or_false] at h
            rcases h with h | h
            · injection h with h2
              rw [h2]
            · exact absurd h (by simp)
    · rename_i tb heq2
      have htb : (take_break env s).1 = tb := by rw [heq2]
      rw [htb] at htm
      cases hsv : env.save
          { s with state := State.WaitingForNext (Drivers.next s.drivers cfg.name) } with
      | error e2 =>
        simp only [hsv] at h
        rw [List.mem_append, List.mem_append] at h
        rcases h with (h | h) | h
        · exact absurd h hgm
        · exact absurd h htm
        · simp only [List.mem_cons, List.not_mem_nil, or_false] at h
          injection h with h2
          rw [h2]
      | ok u2 =>
        simp only [hsv] at h
        rw [List.mem_append, List.mem_append] at h
        rcases h with (h | h) | h
        · exact absurd h hgm
        · exact absurd h htm
        · simp only [List.mem_cons, List.not_mem_nil, or_false] at h
          rcases h with h | h
          · injection h with h2
            rw [h2]
          · exact absurd h (by simp)

/-- Witness for C5 as amended: in the concrete break-accepting run, the saved
session keeps `last_break = 0`. -/
theorem c5_witness :
    ({ sessionA with state := State.Break (some "bob") } : Session).last_break =
      sessionA.last_break :=
  c5_last_break_unchanged cfgA envA sessionA
    { sessionA with state := State.Break (some "bob") } (by decide)

/-- C7: in `take_break`, lunch is evaluated before break.  If lunch triggers
and the user accepts it, the result is the lunch break with the lunch
duration and the break prompt is never shown — whatever the break inputs
(`utcNow`, `last_break`, `confirmBreak`) are.  Conversely, whenever the break
prompt appears in the trace, lunch did not trigger or was declined. -/
theorem c7_lunch_before_break (env : Env) (s : Session) (st : Settings)
    (hs : s.settings = some st) :
    (∀ d, is_lunch_time env.localNow st.work_duration st.lunch_start
        st.lunch_end = .ok (some d) →
      env.confirmLunch = .ok true →
      take_break env s =
        ([Effect.confirm lunchPromptText], .ok (some ("Lunch", d)))) ∧
    (Effect.confirm breakPromptText ∈ (take_break env s).1 →
      is_lunch_time env.localNow st.work_duration st.lunch_start
          st.lunch_end = .ok none ∨
      ∃ d, is_lunch_time env.localNow st.work_duration st.lunch_start
          st.lunch_end = .ok (some d) ∧ env.confirmLunch = .ok false) := by
  constructor
  · intro d hl hc
    simp only [take_break, hs, hl, hc]
  · intro hmem
    cases hl : is_lunch_time env.localNow st.work_duration st.lunch_start
        st.lunch_end with
    | error e =>
      simp only [take_break, hs, hl, List.not_mem_nil] at hmem
    | ok o =>
      cases o with
      | none => exact Or.inl rfl
      | some d =>
        cases hc : env.confirmLunch with
        | error e2 =>
          simp only [take_break, hs, hl, hc, List.mem_singleton] at hmem
          exact absurd hmem (by decide)
        | ok b =>
          cases b with
          | true =>
            simp only [take_break, hs, hl, hc, List.mem_singleton] at hmem
            exact absurd hmem (by decide)
          | false => exact Or.inr ⟨d, rfl, rfl⟩

/-- Fixture: like `envA`, but the local clock reads 11:30, inside the lunch
window of `settingsA`. -/
def envL : Env := { envA with localNow := 41400 }

/-- Witness for C7: at 11:30 with lunch accepted, `take_break` returns the
lunch break with the 60-minute lunch duration, showing only the lunch
prompt. -/
theorem c7_witness :
    take_break envL sessionA =
      ([Effect.confirm lunchPromptText], .ok (some ("Lunch", 3600))) :=
  (c7_lunch_before_break envL sessionA settingsA rfl).1 3600 (by decide) rfl

/-- C8 (spec-modelled): for a duplicate-free roster, `Drivers.next` appends
the current user when absent; with at least two entries in the resulting
roster it returns the entry following the current user in rotation order,
wrapping to the start, and with fewer than two it returns `none`.  It is a
pure function, hence deterministic in the roster order and current user. -/
theorem c8_drivers_next (ds : Drivers) (current : String) (hnd : ds.Nodup) :
    (2 ≤ (rosterWith ds current).length →
      ∃ d, Drivers.next ds current = some d ∧
        (rosterWith ds current).get?
          (((rosterWith ds current).indexOf current + 1) %
            (rosterWith ds current).length) = some d) ∧
    ((rosterWith ds current).length < 2 → Drivers.next ds current = none) := by
  constructor
  · intro hlen
    have hpos : 0 < (rosterWith ds current).length :=
      lt_of_lt_of_le (by norm_num) hlen
    have hlt : ((rosterWith ds current).indexOf current + 1) %
        (rosterWith ds current).length < (rosterWith ds current).length :=
      Nat.mod_lt _ hpos
    refine ⟨(rosterWith ds current).get ⟨_, hlt⟩, ?_, List.get?_eq_get hlt⟩
    simp only [Drivers.next]
    rw [if_neg (not_lt.mpr hlen)]
    exact List.get?_eq_get hlt
  · intro hlen
    simp only [Drivers.next]
    rw [if_pos hlen]

/-- Witness for C8: with roster alice, bob and alice current, the next driver
is bob. -/
theorem c8_witness : Drivers.next ["alice", "bob"] "alice" = some "bob" := by
  obtain ⟨d, hd, hg⟩ :=
    (c8_drivers_next ["alice", "bob"] "alice" (by decide)).1 (by decide)
  rw [hd]
  have hv : (rosterWith ["alice", "bob"] "alice").get?
      (((rosterWith ["alice", "bob"] "alice").indexOf "alice" + 1) %
        (rosterWith ["alice", "bob"] "alice").length) = some "bob" := by decide
  rw [hg] at hv
  injection hv with hv2
  rw [hv2]

/-- C9: from `Working` with the acting user driving, a clean tree, no break
taken and a working store, one `next` run succeeds and persists
`WaitingForNext` with the rotated next driver; a second `next` run on that
persisted state succeeds and saves nothing, leaving the same state and the
same next driver. -/
theorem c9_next_idempotent (cfg : Config) (env env2 : Env) (s : Session)
    (hload : env.load = .ok s)
    (hstate : s.state = State.Working cfg.name)
    (hclean : env.treeIsClean = .ok true)
    (hnb : (take_break env s).2 = .ok none)
    (hsave : ∀ x, env.save x = .ok ())
    (hload2 : env2.load =
      .ok { s with state := State.WaitingForNext (Drivers.next s.drivers cfg.name) }) :
    (Next.run cfg env).2 = .ok () ∧
    persisted s (Next.run cfg env).1 =
      { s with state := State.WaitingForNext (Drivers.next s.drivers cfg.name) } ∧
    (Next.run cfg env2).2 = .ok () ∧
    persisted { s with state := State.WaitingForNext (Drivers.next s.drivers cfg.name) }
      (Next.run cfg env2).1 =
      { s with state := State.WaitingForNext (Drivers.next s.drivers cfg.name) } := by
  have hrun1 : Next.run cfg env = Next.next cfg env s := by
    simp [Next.run, hload, hstate]
  have hgs : gitSync cfg env s =
      ([Effect.logInfo "Nothing was changed, so nothing to commit"], .ok ()) := by
    simp only [gitSync, hclean]
  rcases htb : take_break env s with ⟨tb, r⟩
  have hr : r = .ok none := by
    have h2 := hnb
    rw [htb] at h2
    exact h2
  subst hr
  have hnext : Next.next cfg env s =
      ([Effect.logInfo "Nothing was changed, so nothing to commit"] ++ tb ++
        [Effect.save
            { s with state := State.WaitingForNext (Drivers.next s.drivers cfg.name) },
          Effect.logInfo
            ("Next driver: " ++ (Drivers.next s.drivers cfg.name).getD "anyone!")],
        .ok ()) := by
    simp only [Next.next, hgs, htb, hsave]
  refine ⟨?_, ?_, ?_, ?_⟩
  · rw [hrun1, hnext]
  · rw [hrun1, hnext]
    simp only [persisted, lastSave, List.foldl_append, List.foldl_cons,
      List.foldl_nil]
    rfl
  · simp only [Next.run, hload2]
  · simp only [Next.run, hload2]
    cases hn : Drivers.next s.drivers cfg.name with
    | none => rfl
    | some name =>
      by_cases hnm : name = cfg.name <;>
        simp [hnm, persisted, lastSave]

/-- Fixture: like `envA` but with the UTC clock only 100 seconds past the
last break, so no break is due. -/
def env9 : Env := { envA with utcNow := 100 }

/-- Fixture: the same collaborators, loading the state the first run
persisted. -/
def env9b : Env :=
  { env9 with
    load := .ok { sessionA with state := State.WaitingForNext (some "bob") } }

/-- Witness for C9: the concrete two-run scenario on `sessionA`. -/
theorem c9_witness :
    (Next.run cfgA env9).2 = .ok () ∧
    persisted sessionA (Next.run cfgA env9).1 =
      { sessionA with
        state := State.WaitingForNext (Drivers.next sessionA.drivers cfgA.name) } ∧
    (Next.run cfgA env9b).2 = .ok () ∧
    persisted
      { sessionA with
        state := State.WaitingForNext (Drivers.next sessionA.drivers cfgA.name) }
      (Next.run cfgA env9b).1 =
      { sessionA with
        state := State.WaitingForNext (Drivers.next sessionA.drivers cfgA.name) } :=
  c9_next_idempotent cfgA env9 env9b sessionA rfl rfl rfl (by decide)
    (fun _ => rfl) (by decide)

end Mob
